import Mathlib

/-!
# Verification of the TickTick task-duplication automations

Shallow embedding of the reconciliation logic of the `ticktick_automations`
repository.  Python dictionaries holding task fields are modelled by the
`Task` structure (with `Option` fields for keys that may be absent), and
task-creation payloads (plain `dict` literals in the source) are modelled
as association lists from key strings to `Value`s, so that the presence or
absence of a key in the payload is observable.

The sources embedded here:
  * `automations/duplicate_completed_tasks.py` (`matches_filters`,
    `run_automation`),
  * `automation.py` (`TaskDuplicator._matches_filters`,
    `TaskDuplicator._create_duplicate_task`,
    `TaskDuplicator.process_completed_tasks`),
  * `utils/helpers.py` (`create_duplicate_task`),
  * `ticktick/automations/01_duplicate_completed_without_due_date.py`
    (`duplicate_task_without_due_date`, `automation`),
  * `ticktick_automations/utils/ticktick_api.py`
    (`TickTickClient.get_completed_tasks`).

Remote calls (`client.get_completed_tasks`, `client.create_task`,
`client.get_task`, ...) are modelled by explicit oracles passed as
arguments; a call that can raise `TickTickAPIError` is modelled by an
`Except Unit` result or by a `Bool`-valued success oracle.
-/

namespace TickTickAuto

/-- A JSON-ish value as stored under a key of a Python task dict.
Checklist items are opaque sub-records; they are modelled as opaque
strings, since the code only ever copies the whole list verbatim and
tests it for emptiness. -/
inductive Value where
  | null : Value
  | str : String → Value
  | int : Int → Value
  | strList : List String → Value
deriving DecidableEq, Repr

/-- The value of `d.get(k)` for an optional string-valued key:
`None` when the key is absent. -/
def optStrVal : Option String → Value
  | none => Value.null
  | some s => Value.str s

/-- A task object as returned by the TickTick API.  Every field models one
dict key; `none` means the key is absent from the dict. -/
structure Task where
  id : Option String := none
  title : Option String := none
  projectId : Option String := none
  content : Option String := none
  desc : Option String := none
  priority : Option Int := none
  tags : Option (List String) := none
  items : Option (List String) := none
  status : Option Int := none
  dueDate : Option String := none
  startDate : Option String := none
  completedTime : Option String := none
deriving DecidableEq, Repr

/-- A task-creation payload: a `dict` literal in the source, modelled as an
association list so key presence is observable. -/
abbrev Payload := List (String × Value)

/-- Look a key up in a payload (first binding wins, as in a Python dict
built without key repetition). -/
def getKey : Payload → String → Option Value
  | [], _ => none
  | (k, v) :: rest, key => if k = key then some v else getKey rest key

/-- `chStarts hay needle`: `needle` is a prefix of the character list
`hay` (the auxiliary step of Python's `in` operator on strings). -/
def chStarts : List Char → List Char → Bool
  | _, [] => true
  | [], _ :: _ => false
  | a :: hay, b :: needle => a == b && chStarts hay needle

/-- `chContains hay needle`: `needle` occurs contiguously in `hay`;
Python's `needle in hay` on strings, on the underlying character lists. -/
def chContains : List Char → List Char → Bool
  | [], needle => needle.isEmpty
  | hay@(_ :: rest), needle => chStarts hay needle || chContains rest needle

/-- Python's `needle in hay` on strings. -/
def strContains (hay needle : String) : Bool :=
  chContains hay.toList needle.toList

/-- Python's `str.lower()`: lower-case every character. -/
def pyLower (s : String) : String := ⟨s.data.map Char.toLower⟩

/-- `matches_filters` of `automations/duplicate_completed_tasks.py`
(lines 90–115); `TaskDuplicator._matches_filters` of `automation.py`
(lines 69–92) is the identical code with the filters read from `self`.
Python truthiness: a `None` or empty name filter and an empty tag-filter
list disable the respective check. -/
def matches_filters (task : Task) (name_filter : Option String)
    (tag_filters : List String) : Bool :=
  -- if name_filter: return False unless name_filter.lower() in title.lower()
  let nameOk : Bool :=
    match name_filter with
    | none => true
    | some f =>
        (f == "") || strContains (pyLower (task.title.getD "")) (pyLower f)
  if !nameOk then false
  else
    -- if tag_filters: return False unless some required tag is in task's tags
    let tagOk : Bool :=
      if tag_filters.isEmpty then true
      else tag_filters.any (fun tag => (task.tags.getD []).contains tag)
    if !tagOk then false else true

/-- `create_duplicate_task` of `utils/helpers.py` (lines 76–103);
`TaskDuplicator._create_duplicate_task` of `automation.py` (lines 94–121)
is the identical code.  The `dueDate`, `startDate` and `completedTime`
keys are deliberately never written. -/
def create_duplicate_task (original_task : Task) : Payload :=
  let new_task : Payload :=
    [("title", optStrVal original_task.title),
     ("projectId", optStrVal original_task.projectId),
     ("content", Value.str (original_task.content.getD "")),
     ("desc", Value.str (original_task.desc.getD "")),
     ("priority", Value.int (original_task.priority.getD 0)),
     ("tags", Value.strList (original_task.tags.getD []))]
  -- if "items" in original_task and original_task["items"]:
  match original_task.items with
  | none => new_task
  | some l => if l.isEmpty then new_task else new_task ++ [("items", Value.strList l)]

/-- `duplicate_task_without_due_date` of
`ticktick/automations/01_duplicate_completed_without_due_date.py`
(lines 13–36).  Same construction as `create_duplicate_task`, but this
variant writes no `tags` key. -/
def duplicate_task_without_due_date (original_task : Task) : Payload :=
  let new_task : Payload :=
    [("title", optStrVal original_task.title),
     ("projectId", optStrVal original_task.projectId),
     ("content", Value.str (original_task.content.getD "")),
     ("desc", Value.str (original_task.desc.getD "")),
     ("priority", Value.int (original_task.priority.getD 0))]
  match original_task.items with
  | none => new_task
  | some l => if l.isEmpty then new_task else new_task ++ [("items", Value.strList l)]

/-- The statistics dictionary built by a reconciliation pass. -/
structure Stats where
  checked : Nat
  matched : Nat
  duplicated : Nat
  errors : Nat
deriving DecidableEq, Repr

/-- In-flight state of `run_automation`'s per-task loop
(`automations/duplicate_completed_tasks.py`, lines 156–194).
`createCalls` instruments every invocation of `client.create_task`
(recording the task id it was made for together with the payload, whether
or not the call succeeds), and `filterCalls` instruments every invocation
of `matches_filters`. -/
structure RunState where
  stats : Stats
  processed : Finset String
  createCalls : List (String × Payload)
  filterCalls : List Task
deriving DecidableEq

/-- One iteration of the `for task in completed_tasks` loop of
`run_automation` (`automations/duplicate_completed_tasks.py`,
lines 156–194).  `create_ok task` tells whether `client.create_task`
succeeds or raises `TickTickAPIError` for the payload built from `task`. -/
def runStep (create_ok : Task → Bool) (name_filter : Option String)
    (tag_filters : List String) (st : RunState) (task : Task) : RunState :=
  let st := { st with stats := { st.stats with checked := st.stats.checked + 1 } }
  match task.id with
  | none => st          -- "Skip tasks without valid ID"
  | some task_id =>
    if task_id = "" then st     -- `if not task_id: continue`
    else if task_id ∈ st.processed then st    -- skip if already processed
    else
      let st := { st with filterCalls := st.filterCalls ++ [task] }
      if !matches_filters task name_filter tag_filters then
        -- mark as processed even if it doesn't match
        { st with processed := insert task_id st.processed }
      else
        let st := { st with stats := { st.stats with matched := st.stats.matched + 1 } }
        let new_task_data := create_duplicate_task task
        let st := { st with createCalls := st.createCalls ++ [(task_id, new_task_data)] }
        if create_ok task then
          { st with
            stats := { st.stats with duplicated := st.stats.duplicated + 1 },
            processed := insert task_id st.processed }
        else
          { st with stats := { st.stats with errors := st.stats.errors + 1 } }

/-- Result of one `run_automation` pass.  `saved` records whether
`save_processed_tasks` was reached (the whole-file persist at the end of
the `try` block). -/
structure RunResult where
  stats : Stats
  processed : Finset String
  createCalls : List (String × Payload)
  filterCalls : List Task
  saved : Bool
deriving DecidableEq

/-- `run_automation` of `automations/duplicate_completed_tasks.py`
(lines 118–211).  `fetched` is the outcome of
`client.get_completed_tasks(from_date=...)`: `.error ()` models a
`TickTickAPIError` raised by the fetch, which skips the loop and the
persist and bumps only the error counter.  `processed_init` is the set
loaded from the state file by `get_processed_tasks`. -/
def run_automation (create_ok : Task → Bool) (name_filter : Option String)
    (tag_filters : List String) (fetched : Except Unit (List Task))
    (processed_init : Finset String) : RunResult :=
  match fetched with
  | .error _ =>
      { stats := ⟨0, 0, 0, 1⟩, processed := processed_init,
        createCalls := [], filterCalls := [], saved := false }
  | .ok completed_tasks =>
      let final := completed_tasks.foldl (runStep create_ok name_filter tag_filters)
        { stats := ⟨0, 0, 0, 0⟩, processed := processed_init,
          createCalls := [], filterCalls := [] }
      { stats := final.stats, processed := final.processed,
        createCalls := final.createCalls, filterCalls := final.filterCalls,
        saved := true }

/-- In-flight loop state of `TaskDuplicator.process_completed_tasks`
(`automation.py`).  Unlike `run_automation`, this variant has no guard on
missing ids, so `task.get("id")` (an `Option String`, possibly `none`) is
what is stored in and tested against `processed_task_ids`. -/
structure TDState where
  stats : Stats
  processed : Finset (Option String)
  createCalls : List (Option String × Payload)
  filterCalls : List Task
deriving DecidableEq

/-- One iteration of the `for task in completed_tasks` loop of
`TaskDuplicator.process_completed_tasks` (`automation.py`, lines 142–176). -/
def processStep (create_ok : Task → Bool) (name_filter : Option String)
    (tag_filters : List String) (st : TDState) (task : Task) : TDState :=
  let st := { st with stats := { st.stats with checked := st.stats.checked + 1 } }
  let task_id := task.id
  if task_id ∈ st.processed then st
  else
    let st := { st with filterCalls := st.filterCalls ++ [task] }
    if !matches_filters task name_filter tag_filters then
      { st with processed := insert task_id st.processed }
    else
      let st := { st with stats := { st.stats with matched := st.stats.matched + 1 } }
      let new_task_data := create_duplicate_task task
      let st := { st with createCalls := st.createCalls ++ [(task_id, new_task_data)] }
      if create_ok task then
        { st with
          stats := { st.stats with duplicated := st.stats.duplicated + 1 },
          processed := insert task_id st.processed }
      else
        { st with stats := { st.stats with errors := st.stats.errors + 1 } }

/-- Result of one `TaskDuplicator.process_completed_tasks` pass. -/
structure TDResult where
  stats : Stats
  processed : Finset (Option String)
  createCalls : List (Option String × Payload)
  filterCalls : List Task
  saved : Bool
deriving DecidableEq

/-- `TaskDuplicator.process_completed_tasks` of `automation.py`
(lines 123–185). -/
def process_completed_tasks (create_ok : Task → Bool) (name_filter : Option String)
    (tag_filters : List String) (fetched : Except Unit (List Task))
    (processed_init : Finset (Option String)) : TDResult :=
  match fetched with
  | .error _ =>
      { stats := ⟨0, 0, 0, 1⟩, processed := processed_init,
        createCalls := [], filterCalls := [], saved := false }
  | .ok completed_tasks =>
      let final := completed_tasks.foldl (processStep create_ok name_filter tag_filters)
        { stats := ⟨0, 0, 0, 0⟩, processed := processed_init,
          createCalls := [], filterCalls := [] }
      { stats := final.stats, processed := final.processed,
        createCalls := final.createCalls, filterCalls := final.filterCalls,
        saved := true }

/-- A chained sequence of `run_automation` passes.  Each pass runs with
its own create-success oracle and fetch outcome; the processed-ID set
flows from one pass to the next (on a fetch failure the pass leaves the
persisted state untouched, and `run_automation` returns `processed_init`
unchanged, so chaining `.processed` models the persisted state in every
case). -/
def runPasses (name_filter : Option String) (tag_filters : List String)
    (passes : List ((Task → Bool) × Except Unit (List Task)))
    (processed_init : Finset String) : Finset String :=
  passes.foldl
    (fun proc p => (run_automation p.1 name_filter tag_filters p.2 proc).processed)
    processed_init

/-- A chained sequence of `TaskDuplicator.process_completed_tasks` passes,
analogous to `runPasses`: the processed-ID set flows from one pass to the
next (a fetch-failure pass returns it unchanged, matching the unpersisted
state). -/
def tdPasses (name_filter : Option String) (tag_filters : List String)
    (passes : List ((Task → Bool) × Except Unit (List Task)))
    (processed_init : Finset (Option String)) : Finset (Option String) :=
  passes.foldl
    (fun proc p => (process_completed_tasks p.1 name_filter tag_filters p.2 proc).processed)
    processed_init

/-! ### Mode B: `ticktick/automations/01_duplicate_completed_without_due_date.py` -/

/-- Oracle for the remote calls that the Mode B `automation` makes:
`get_all_pending_tasks()`, `get_task(project_id, task_id)` and
`create_task(payload)` (whose JSON response is the created task). -/
structure ModeBClient where
  pending : List Task
  getTask : String → String → Task
  createResult : Payload → Task

/-- The association-list model of a Python dict from task id to task
(the `ticktick/` variant's state file holds such a map). -/
abbrev StateMap := List (String × Task)

/-- Python dict assignment `d[k] = v`. -/
def mapSet (m : StateMap) (k : String) (v : Task) : StateMap :=
  if m.any (fun kv => kv.1 == k) then
    m.map (fun kv => if kv.1 == k then (k, v) else kv)
  else m ++ [(k, v)]

/-- `automation` of
`ticktick/automations/01_duplicate_completed_without_due_date.py`
(lines 39–87), as a function from the loaded `old_state` to the
`new_state` that is saved.  The source indexes `task["id"]`
unconditionally, so task ids are read with a default of `""`. -/
def automation01 (client : ModeBClient) (old_state : StateMap) : StateMap :=
  let new_state : StateMap := client.pending.map (fun t => (t.id.getD "", t))
  -- for task_id in set(old_state.keys()) - set(new_state.keys())
  let missing :=
    (old_state.map Prod.fst).filter (fun k => !(new_state.map Prod.fst).contains k)
  let new_state := missing.foldl
    (fun ns task_id =>
      match old_state.lookup task_id with
      | none => ns
      | some task0 =>
          let task := client.getTask (task0.projectId.getD "") (task0.id.getD "")
          -- if task["status"] == 2: duplicate it
          if task.status.getD 0 == 2 then
            let new_task := client.createResult (duplicate_task_without_due_date task)
            mapSet ns (new_task.id.getD "") new_task
          else ns)
    new_state
  -- limit new state to only valid tasks (title starts with "zap:")
  new_state.filter (fun kv => chStarts (pyLower (kv.2.title.getD "")).toList "zap:".toList)

/-! ### `get_completed_tasks` of `ticktick_automations/utils/ticktick_api.py` -/

/-- A project object, as used by `get_completed_tasks` (only its id is
read). -/
structure ProjectInfo where
  id : String
deriving DecidableEq, Repr

/-- Oracle for the remote calls made by
`TickTickClient.get_completed_tasks`: `get_projects()` and
`get_project_data(project_id)` (only its `"tasks"` key is read). -/
structure TickTickRemote where
  projects : List ProjectInfo
  project_data : String → List Task

/-- `TickTickClient.get_completed_tasks` of
`ticktick_automations/utils/ticktick_api.py` (lines 141–204).  The loop
body filters out tasks whose status is not `2` and prints the rest, but
never appends anything to the `completed_tasks` accumulator; the
date-window filter of the source is entirely commented out (hence the
unused `from_date`). -/
def get_completed_tasks (remote : TickTickRemote) (project_id : Option String)
    (from_date : Option Nat) : List Task :=
  let project_ids :=
    match project_id with
    | none => remote.projects.map ProjectInfo.id
    | some pid => [pid]
  let completed_tasks : List Task := []
  project_ids.foldl
    (fun completed_tasks pid =>
      let tasks := remote.project_data pid
      (tasks.filter (fun task => task.status.getD 0 == 2)).foldl
        (fun completed_tasks _task => completed_tasks)
        completed_tasks)
    completed_tasks

/-! ### Concrete scenarios used by closed theorems -/

/-- The completed task of the spec's end-to-end scenario:
`{id: "t1", title: "Zap: buy milk", tags: ["errand"], dueDate: "2025-01-01"}`. -/
def zapTask : Task :=
  { id := some "t1", title := some "Zap: buy milk", tags := some ["errand"],
    dueDate := some "2025-01-01" }

/-- A task that the remote service reports as completed (status 2). -/
def doneTask : Task := { id := some "d1", title := some "done", status := some 2 }

/-- A remote universe with one project holding one completed task. -/
def remoteC8 : TickTickRemote :=
  { projects := [⟨"p1"⟩], project_data := fun _ => [doneTask] }

/-- Mode B scenario: the last-known snapshot of pending task `"a"`. -/
def taskA : Task := { id := some "a", projectId := some "p", title := some "Zap: thing" }

/-- Mode B scenario: the refetched detail of task `"a"`, now completed. -/
def taskA2 : Task :=
  { id := some "a", projectId := some "p", title := some "Zap: thing", status := some 2 }

/-- Mode B scenario: the duplicate task returned by `create_task`. -/
def taskB : Task := { id := some "b", title := some "Zap: thing" }

/-- Mode B scenario client: no pending tasks remain, the refetch of `"a"`
reports it completed, and creation succeeds returning `taskB`. -/
def modeBClient0 : ModeBClient :=
  { pending := [], getTask := fun _ _ => taskA2, createResult := fun _ => taskB }

/-- Mode B scenario: loaded state holding exactly task `"a"`. -/
def modeBState0 : StateMap := [("a", taskA)]

/-! ## Helper lemmas -/

theorem chStarts_iff :
    ∀ (hay needle : List Char), chStarts hay needle = true ↔ ∃ suf, hay = needle ++ suf
  | hay, [] => by simp [chStarts]
  | [], _ :: _ => by simp [chStarts]
  | a :: hay, b :: bs => by
      simp only [chStarts, Bool.and_eq_true, beq_iff_eq, chStarts_iff hay bs,
        List.cons_append, List.cons.injEq]
      constructor
      · rintro ⟨rfl, suf, rfl⟩
        exact ⟨suf, rfl, rfl⟩
      · rintro ⟨suf, rfl, rfl⟩
        exact ⟨rfl, suf, rfl⟩

theorem chContains_iff :
    ∀ (hay needle : List Char),
      chContains hay needle = true ↔ ∃ pre suf, hay = pre ++ needle ++ suf
  | [], needle => by
      constructor
      · intro h
        refine ⟨[], [], ?_⟩
        have : needle = [] := by simpa [chContains, List.isEmpty_iff] using h
        simp [this]
      · rintro ⟨pre, suf, h⟩
        have h2 := h.symm
        rw [List.append_assoc, List.append_eq_nil] at h2
        rw [List.append_eq_nil] at h2
        simp [chContains, List.isEmpty_iff, h2.2.1]
  | a :: hay, needle => by
      simp only [chContains, Bool.or_eq_true, chStarts_iff, chContains_iff hay needle]
      constructor
      · rintro (⟨suf, h⟩ | ⟨pre, suf, h⟩)
        · exact ⟨[], suf, by simpa using h⟩
        · exact ⟨a :: pre, suf, by simp [h]⟩
      · rintro ⟨pre, suf, h⟩
        cases pre with
        | nil =>
            left
            exact ⟨suf, by simpa using h⟩
        | cons x xs =>
            right
            rw [List.cons_append, List.cons_append, List.cons.injEq] at h
            exact ⟨xs, suf, h.2⟩

theorem runStep_processed_mono (co : Task → Bool) (nf : Option String) (tf : List String)
    (st : RunState) (t : Task) : st.processed ⊆ (runStep co nf tf st t).processed := by
  rcases ht : t.id with _ | s
  · simp only [runStep, ht]
    exact Finset.Subset.refl _
  · simp only [runStep, ht]
    split_ifs <;>
      first
        | exact Finset.Subset.refl _
        | exact Finset.subset_insert _ _

theorem foldl_run_processed_mono (co : Task → Bool) (nf : Option String) (tf : List String)
    (st : RunState) (l : List Task) :
    st.processed ⊆ (l.foldl (runStep co nf tf) st).processed := by
  induction l generalizing st with
  | nil => exact Finset.Subset.refl _
  | cons t ts ih =>
      exact (runStep_processed_mono co nf tf st t).trans (ih _)

theorem runStep_skip (co : Task → Bool) (nf : Option String) (tf : List String)
    (st : RunState) (t : Task) (s : String) (hid : t.id = some s)
    (hmem : s ∈ st.processed) :
    runStep co nf tf st t
      = { st with stats := { st.stats with checked := st.stats.checked + 1 } } := by
  simp only [runStep, hid]
  by_cases h1 : s = ""
  · rw [if_pos h1]
  · rw [if_neg h1, if_pos hmem]

theorem runStep_createCalls (co : Task → Bool) (nf : Option String) (tf : List String)
    (st : RunState) (t : Task) :
    ∀ pr ∈ (runStep co nf tf st t).createCalls,
      pr ∈ st.createCalls
        ∨ (t.id = some pr.1 ∧ pr.1 ∉ st.processed ∧ matches_filters t nf tf = true) := by
  intro pr hpr
  rcases ht : t.id with _ | s
  · simp only [runStep, ht] at hpr
    exact Or.inl hpr
  · simp only [runStep, ht] at hpr
    split_ifs at hpr with h1 h2 h3 h4
    · exact Or.inl hpr
    · exact Or.inl hpr
    · exact Or.inl hpr
    all_goals
      simp only [Bool.not_eq_true, Bool.not_eq_false'] at h3
      simp only [List.mem_append, List.mem_singleton] at hpr
      rcases hpr with hpr | rfl
      · exact Or.inl hpr
      · exact Or.inr ⟨rfl, h2, h3⟩

theorem runStep_filterCalls (co : Task → Bool) (nf : Option String) (tf : List String)
    (st : RunState) (t : Task) :
    ∀ u ∈ (runStep co nf tf st t).filterCalls,
      u ∈ st.filterCalls ∨ (u = t ∧ ∃ s, t.id = some s ∧ s ∉ st.processed) := by
  intro u hu
  rcases ht : t.id with _ | s
  · simp only [runStep, ht] at hu
    exact Or.inl hu
  · simp only [runStep, ht] at hu
    split_ifs at hu with h1 h2 h3 h4
    · exact Or.inl hu
    · exact Or.inl hu
    all_goals
      simp only [List.mem_append, List.mem_singleton] at hu
      rcases hu with hu | rfl
      · exact Or.inl hu
      · exact Or.inr ⟨rfl, s, rfl, h2⟩

theorem foldl_run_noCalls (co : Task → Bool) (nf : Option String) (tf : List String)
    (st : RunState) (l : List Task) (s : String) (hmem : s ∈ st.processed) :
    (∀ pr ∈ (l.foldl (runStep co nf tf) st).createCalls,
        pr ∈ st.createCalls ∨ pr.1 ≠ s)
    ∧ (∀ u ∈ (l.foldl (runStep co nf tf) st).filterCalls,
        u ∈ st.filterCalls ∨ u.id ≠ some s) := by
  induction l generalizing st with
  | nil => exact ⟨fun pr hpr => Or.inl hpr, fun u hu => Or.inl hu⟩
  | cons t ts ih =>
      have hmem2 : s ∈ (runStep co nf tf st t).processed :=
        runStep_processed_mono co nf tf st t hmem
      obtain ⟨ihc, ihf⟩ := ih (runStep co nf tf st t) hmem2
      constructor
      · intro pr hpr
        rcases ihc pr hpr with h | h
        · rcases runStep_createCalls co nf tf st t pr h with h2 | ⟨hid, hnot, -⟩
          · exact Or.inl h2
          · refine Or.inr ?_
            intro heq
            exact hnot (heq ▸ hmem)
        · exact Or.inr h
      · intro u hu
        rcases ihf u hu with h | h
        · rcases runStep_filterCalls co nf tf st t u h with h2 | ⟨rfl, s2, hid, hnot⟩
          · exact Or.inl h2
          · refine Or.inr ?_
            intro heq
            rw [heq] at hid
            exact hnot (Option.some.inj hid ▸ hmem)
        · exact Or.inr h

theorem runStep_nomatch (co : Task → Bool) (nf : Option String) (tf : List String)
    (st : RunState) (t : Task) (s : String) (hid : t.id = some s) (hs : s ≠ "")
    (hmem : s ∉ st.processed) (hnm : matches_filters t nf tf = false) :
    runStep co nf tf st t
      = { st with
          stats := { st.stats with checked := st.stats.checked + 1 },
          processed := insert s st.processed,
          filterCalls := st.filterCalls ++ [t] } := by
  simp only [runStep, hid]
  rw [if_neg hs, if_neg hmem, if_pos (by simp [hnm])]

theorem runStep_createfail (co : Task → Bool) (nf : Option String) (tf : List String)
    (st : RunState) (t : Task) (s : String) (hid : t.id = some s) (hs : s ≠ "")
    (hmem : s ∉ st.processed) (hm : matches_filters t nf tf = true) (hco : co t = false) :
    runStep co nf tf st t
      = { st with
          stats := { st.stats with
                      checked := st.stats.checked + 1,
                      matched := st.stats.matched + 1,
                      errors := st.stats.errors + 1 },
          filterCalls := st.filterCalls ++ [t],
          createCalls := st.createCalls ++ [(s, create_duplicate_task t)] } := by
  simp only [runStep, hid]
  rw [if_neg hs, if_neg hmem, if_neg (by simp [hm]), if_neg (by simp [hco])]

theorem foldl_mem_processed_of_nomatch (co : Task → Bool) (nf : Option String)
    (tf : List String) (st : RunState) (l : List Task) (T : Task) (s : String)
    (hid : T.id = some s) (hs : s ≠ "") (hnm : matches_filters T nf tf = false)
    (hmemT : T ∈ l) : s ∈ (l.foldl (runStep co nf tf) st).processed := by
  induction l generalizing st with
  | nil => cases hmemT
  | cons t ts ih =>
      rcases List.mem_cons.mp hmemT with rfl | hmemT
      · by_cases hin : s ∈ st.processed
        · exact foldl_run_processed_mono co nf tf _ ts
            (runStep_processed_mono co nf tf st T hin)
        · refine foldl_run_processed_mono co nf tf _ ts ?_
          rw [runStep_nomatch co nf tf st T s hid hs hin hnm]
          exact Finset.mem_insert_self s _
      · exact ih _ hmemT

theorem foldl_noCalls_of_nomatch (co : Task → Bool) (nf : Option String)
    (tf : List String) (st : RunState) (l : List Task) (s : String)
    (hall : ∀ u ∈ l, u.id = some s → matches_filters u nf tf = false) :
    ∀ pr ∈ (l.foldl (runStep co nf tf) st).createCalls,
      pr ∈ st.createCalls ∨ pr.1 ≠ s := by
  induction l generalizing st with
  | nil => exact fun pr hpr => Or.inl hpr
  | cons t ts ih =>
      intro pr hpr
      rcases ih (runStep co nf tf st t)
          (fun u hu => hall u (List.mem_cons_of_mem t hu)) pr hpr with h | h
      · rcases runStep_createCalls co nf tf st t pr h with h2 | ⟨hid, -, hm⟩
        · exact Or.inl h2
        · refine Or.inr ?_
          intro heq
          rw [heq] at hid
          rw [hall t (List.mem_cons_self t ts) hid] at hm
          exact Bool.false_ne_true hm
      · exact Or.inr h

theorem runStep_not_mem (co : Task → Bool) (nf : Option String) (tf : List String)
    (st : RunState) (t : Task) (s : String) (hmem : s ∉ st.processed)
    (ht : t.id = some s → matches_filters t nf tf = true ∧ co t = false) :
    s ∉ (runStep co nf tf st t).processed := by
  rcases hid : t.id with _ | s2
  · simpa only [runStep, hid] using hmem
  · simp only [runStep, hid]
    split_ifs with h1 h2 h3 h4
    · exact hmem
    · exact hmem
    · intro hin
      rcases Finset.mem_insert.mp hin with rfl | hin
      · have hmf := (ht hid).1
        rw [hmf] at h3
        simp at h3
      · exact hmem hin
    · intro hin
      rcases Finset.mem_insert.mp hin with rfl | hin
      · have hco := (ht hid).2
        rw [hco] at h4
        exact Bool.false_ne_true h4
      · exact hmem hin
    · exact hmem

theorem foldl_not_mem (co : Task → Bool) (nf : Option String) (tf : List String)
    (st : RunState) (l : List Task) (s : String) (hmem : s ∉ st.processed)
    (hall : ∀ u ∈ l, u.id = some s → matches_filters u nf tf = true ∧ co u = false) :
    s ∉ (l.foldl (runStep co nf tf) st).processed := by
  induction l generalizing st with
  | nil => exact hmem
  | cons t ts ih =>
      exact ih _
        (runStep_not_mem co nf tf st t s hmem (hall t (List.mem_cons_self t ts)))
        (fun u hu => hall u (List.mem_cons_of_mem t hu))

theorem runStep_checked (co : Task → Bool) (nf : Option String) (tf : List String)
    (st : RunState) (t : Task) :
    (runStep co nf tf st t).stats.checked = st.stats.checked + 1 := by
  rcases ht : t.id with _ | s
  · simp only [runStep, ht]
  · simp only [runStep, ht]
    split_ifs <;> rfl

theorem runStep_inv (co : Task → Bool) (nf : Option String) (tf : List String)
    (st : RunState) (t : Task)
    (h : st.stats.matched = st.stats.duplicated + st.stats.errors) :
    (runStep co nf tf st t).stats.matched
      = (runStep co nf tf st t).stats.duplicated + (runStep co nf tf st t).stats.errors := by
  rcases ht : t.id with _ | s
  · simpa only [runStep, ht] using h
  · simp only [runStep, ht]
    split_ifs <;> simp <;> omega

theorem runStep_matched_le (co : Task → Bool) (nf : Option String) (tf : List String)
    (st : RunState) (t : Task) (h : st.stats.matched ≤ st.stats.checked) :
    (runStep co nf tf st t).stats.matched ≤ (runStep co nf tf st t).stats.checked := by
  rcases ht : t.id with _ | s
  · simp only [runStep, ht]
    exact h.trans (Nat.le_succ _)
  · simp only [runStep, ht]
    split_ifs <;> simp <;> omega

theorem foldl_run_checked (co : Task → Bool) (nf : Option String) (tf : List String)
    (st : RunState) (l : List Task) :
    (l.foldl (runStep co nf tf) st).stats.checked = st.stats.checked + l.length := by
  induction l generalizing st with
  | nil => rfl
  | cons t ts ih =>
      rw [List.foldl_cons, ih, runStep_checked, List.length_cons]
      omega

theorem foldl_run_inv (co : Task → Bool) (nf : Option String) (tf : List String)
    (st : RunState) (l : List Task)
    (h : st.stats.matched = st.stats.duplicated + st.stats.errors) :
    (l.foldl (runStep co nf tf) st).stats.matched
      = (l.foldl (runStep co nf tf) st).stats.duplicated
        + (l.foldl (runStep co nf tf) st).stats.errors := by
  induction l generalizing st with
  | nil => exact h
  | cons t ts ih => exact ih _ (runStep_inv co nf tf st t h)

theorem foldl_run_matched_le (co : Task → Bool) (nf : Option String) (tf : List String)
    (st : RunState) (l : List Task) (h : st.stats.matched ≤ st.stats.checked) :
    (l.foldl (runStep co nf tf) st).stats.matched
      ≤ (l.foldl (runStep co nf tf) st).stats.checked := by
  induction l generalizing st with
  | nil => exact h
  | cons t ts ih => exact ih _ (runStep_matched_le co nf tf st t h)

theorem run_automation_processed_mono (co : Task → Bool) (nf : Option String)
    (tf : List String) (fetched : Except Unit (List Task)) (init : Finset String) :
    init ⊆ (run_automation co nf tf fetched init).processed := by
  rcases fetched with e | l
  · simp only [run_automation]
    exact Finset.Subset.refl _
  · simp only [run_automation]
    exact foldl_run_processed_mono co nf tf
      { stats := ⟨0, 0, 0, 0⟩, processed := init, createCalls := [], filterCalls := [] } l

/-! ### Helper lemmas for `TaskDuplicator.process_completed_tasks` -/

theorem processStep_skip (co : Task → Bool) (nf : Option String) (tf : List String)
    (st : TDState) (t : Task) (hmem : t.id ∈ st.processed) :
    processStep co nf tf st t
      = { st with stats := { st.stats with checked := st.stats.checked + 1 } } := by
  simp only [processStep]
  rw [if_pos hmem]

theorem processStep_createfail (co : Task → Bool) (nf : Option String) (tf : List String)
    (st : TDState) (t : Task) (hmem : t.id ∉ st.processed)
    (hm : matches_filters t nf tf = true) (hco : co t = false) :
    processStep co nf tf st t
      = { st with
          stats := { st.stats with
                      checked := st.stats.checked + 1,
                      matched := st.stats.matched + 1,
                      errors := st.stats.errors + 1 },
          filterCalls := st.filterCalls ++ [t],
          createCalls := st.createCalls ++ [(t.id, create_duplicate_task t)] } := by
  simp only [processStep]
  rw [if_neg hmem, if_neg (by simp [hm]), if_neg (by simp [hco])]

theorem processStep_checked (co : Task → Bool) (nf : Option String) (tf : List String)
    (st : TDState) (t : Task) :
    (processStep co nf tf st t).stats.checked = st.stats.checked + 1 := by
  simp only [processStep]
  split_ifs <;> rfl

theorem processStep_inv (co : Task → Bool) (nf : Option String) (tf : List String)
    (st : TDState) (t : Task)
    (h : st.stats.matched = st.stats.duplicated + st.stats.errors) :
    (processStep co nf tf st t).stats.matched
      = (processStep co nf tf st t).stats.duplicated
        + (processStep co nf tf st t).stats.errors := by
  simp only [processStep]
  split_ifs <;> simp <;> omega

theorem processStep_matched_le (co : Task → Bool) (nf : Option String) (tf : List String)
    (st : TDState) (t : Task) (h : st.stats.matched ≤ st.stats.checked) :
    (processStep co nf tf st t).stats.matched ≤ (processStep co nf tf st t).stats.checked := by
  simp only [processStep]
  split_ifs <;> simp <;> omega

theorem foldl_td_checked (co : Task → Bool) (nf : Option String) (tf : List String)
    (st : TDState) (l : List Task) :
    (l.foldl (processStep co nf tf) st).stats.checked = st.stats.checked + l.length := by
  induction l generalizing st with
  | nil => rfl
  | cons t ts ih =>
      rw [List.foldl_cons, ih, processStep_checked, List.length_cons]
      omega

theorem foldl_td_inv (co : Task → Bool) (nf : Option String) (tf : List String)
    (st : TDState) (l : List Task)
    (h : st.stats.matched = st.stats.duplicated + st.stats.errors) :
    (l.foldl (processStep co nf tf) st).stats.matched
      = (l.foldl (processStep co nf tf) st).stats.duplicated
        + (l.foldl (processStep co nf tf) st).stats.errors := by
  induction l generalizing st with
  | nil => exact h
  | cons t ts ih => exact ih _ (processStep_inv co nf tf st t h)

theorem foldl_td_matched_le (co : Task → Bool) (nf : Option String) (tf : List String)
    (st : TDState) (l : List Task) (h : st.stats.matched ≤ st.stats.checked) :
    (l.foldl (processStep co nf tf) st).stats.matched
      ≤ (l.foldl (processStep co nf tf) st).stats.checked := by
  induction l generalizing st with
  | nil => exact h
  | cons t ts ih => exact ih _ (processStep_matched_le co nf tf st t h)

theorem processStep_processed_mono (co : Task → Bool) (nf : Option String)
    (tf : List String) (st : TDState) (t : Task) :
    st.processed ⊆ (processStep co nf tf st t).processed := by
  simp only [processStep]
  split_ifs <;>
    first
      | exact Finset.Subset.refl _
      | exact Finset.subset_insert _ _

theorem foldl_td_processed_mono (co : Task → Bool) (nf : Option String)
    (tf : List String) (st : TDState) (l : List Task) :
    st.processed ⊆ (l.foldl (processStep co nf tf) st).processed := by
  induction l generalizing st with
  | nil => exact Finset.Subset.refl _
  | cons t ts ih =>
      exact (processStep_processed_mono co nf tf st t).trans (ih _)

theorem processStep_newCalls (co : Task → Bool) (nf : Option String)
    (tf : List String) (st : TDState) (t : Task) :
    (∀ pr ∈ (processStep co nf tf st t).createCalls,
        pr ∈ st.createCalls ∨ (pr.1 = t.id ∧ t.id ∉ st.processed))
    ∧ (∀ u ∈ (processStep co nf tf st t).filterCalls,
        u ∈ st.filterCalls ∨ (u = t ∧ t.id ∉ st.processed)) := by
  simp only [processStep]
  split_ifs with h1 h2 h3
  · exact ⟨fun pr hpr => Or.inl hpr, fun u hu => Or.inl hu⟩
  · refine ⟨fun pr hpr => Or.inl hpr, fun u hu => ?_⟩
    simp only [List.mem_append, List.mem_singleton] at hu
    rcases hu with hu | rfl
    · exact Or.inl hu
    · exact Or.inr ⟨rfl, h1⟩
  all_goals
    refine ⟨fun pr hpr => ?_, fun u hu => ?_⟩
    · simp only [List.mem_append, List.mem_singleton] at hpr
      rcases hpr with hpr | rfl
      · exact Or.inl hpr
      · exact Or.inr ⟨rfl, h1⟩
    · simp only [List.mem_append, List.mem_singleton] at hu
      rcases hu with hu | rfl
      · exact Or.inl hu
      · exact Or.inr ⟨rfl, h1⟩

theorem foldl_td_noCalls (co : Task → Bool) (nf : Option String) (tf : List String)
    (st : TDState) (l : List Task) (x : Option String) (hmem : x ∈ st.processed) :
    (∀ pr ∈ (l.foldl (processStep co nf tf) st).createCalls,
        pr ∈ st.createCalls ∨ pr.1 ≠ x)
    ∧ (∀ u ∈ (l.foldl (processStep co nf tf) st).filterCalls,
        u ∈ st.filterCalls ∨ u.id ≠ x) := by
  induction l generalizing st with
  | nil => exact ⟨fun pr hpr => Or.inl hpr, fun u hu => Or.inl hu⟩
  | cons t ts ih =>
      have hmem2 : x ∈ (processStep co nf tf st t).processed :=
        processStep_processed_mono co nf tf st t hmem
      obtain ⟨ihc, ihf⟩ := ih (processStep co nf tf st t) hmem2
      constructor
      · intro pr hpr
        rcases ihc pr hpr with h | h
        · rcases (processStep_newCalls co nf tf st t).1 pr h with h2 | ⟨heq, hnot⟩
          · exact Or.inl h2
          · refine Or.inr ?_
            intro hx
            apply hnot
            rw [← heq, hx]
            exact hmem
        · exact Or.inr h
      · intro u hu
        rcases ihf u hu with h | h
        · rcases (processStep_newCalls co nf tf st t).2 u h with h2 | ⟨rfl, hnot⟩
          · exact Or.inl h2
          · refine Or.inr ?_
            intro hx
            apply hnot
            rw [hx]
            exact hmem
        · exact Or.inr h

theorem process_completed_tasks_processed_mono (co : Task → Bool) (nf : Option String)
    (tf : List String) (fetched : Except Unit (List Task))
    (initTD : Finset (Option String)) :
    initTD ⊆ (process_completed_tasks co nf tf fetched initTD).processed := by
  rcases fetched with e | l
  · simp only [process_completed_tasks]
    exact Finset.Subset.refl _
  · simp only [process_completed_tasks]
    exact foldl_td_processed_mono co nf tf
      { stats := ⟨0, 0, 0, 0⟩, processed := initTD, createCalls := [], filterCalls := [] } l

theorem foldl_const {α : Type} (l : List α) (a : List Task) :
    l.foldl (fun acc (_ : α) => acc) a = a := by
  induction l with
  | nil => rfl
  | cons x xs ih => exact ih

/-! ## Claims -/

/-- Claim C2: the Filter Predicate `matches_filters` is a pure total
function that returns `true` iff (the name filter is absent or a
case-insensitive substring of the task's title) and (the tag filter is
absent or the task's tags intersect the required tags non-emptily); with
both filters absent it accepts every task (the right-hand side then holds
trivially). -/
theorem filter_predicate_contract (task : Task) (nf : Option String) (tf : List String) :
    matches_filters task nf tf = true ↔
      ((nf = none ∨ ∃ f, nf = some f ∧
          ∃ pre suf, (pyLower (task.title.getD "")).toList
            = pre ++ (pyLower f).toList ++ suf)
        ∧ (tf = [] ∨ ∃ tag ∈ tf, tag ∈ task.tags.getD [])) := by
  have hite : ∀ a b : Bool, (if !a then false else if !b then false else true) = (a && b) := by
    intro a b
    cases a <;> cases b <;> rfl
  have htag :
      (if tf.isEmpty then true
        else tf.any (fun tag => (task.tags.getD []).contains tag)) = true
        ↔ (tf = [] ∨ ∃ tag ∈ tf, tag ∈ task.tags.getD []) := by
    rcases tf with _ | ⟨t0, ts⟩
    · simp
    · simp [List.any_eq_true, List.elem_iff]
  rcases nf with _ | f
  · simp only [matches_filters, hite, Bool.and_eq_true, htag]
    simp
  · have hname :
        ((f == "") || strContains (pyLower (task.title.getD "")) (pyLower f)) = true
          ↔ ∃ pre suf,
              (pyLower (task.title.getD "")).toList = pre ++ (pyLower f).toList ++ suf := by
      rw [Bool.or_eq_true, beq_iff_eq, strContains, chContains_iff]
      constructor
      · rintro (rfl | h)
        · have h0 : (pyLower "").data = ([] : List Char) := by decide
          exact ⟨[], (pyLower (task.title.getD "")).toList, by simp [String.toList, h0]⟩
        · exact h
      · exact fun h => Or.inr h
    simp only [matches_filters, hite, Bool.and_eq_true, htag, hname]
    constructor
    · rintro ⟨h1, h2⟩
      exact ⟨Or.inr ⟨f, rfl, h1⟩, h2⟩
    · rintro ⟨h1, h2⟩
      refine ⟨?_, h2⟩
      rcases h1 with h | ⟨g, hg, h⟩
      · exact Option.noConfusion h
      · obtain rfl := Option.some.inj hg
        exact h

/-- Claim C1: a task whose identifier is already in ProcessedRecord at the
start of a pass is skipped as a no-op: the pass never calls `create_task`
for that identifier, and the task's loop iteration only increments the
`checked` counter, leaving `matched`, `duplicated`, the record and the
call traces unchanged — in `run_automation` and, per iteration, in
`TaskDuplicator.process_completed_tasks`. -/
theorem already_processed_is_noop (co : Task → Bool) (nf : Option String)
    (tf : List String) (init : Finset String) (tasks : List Task) (T : Task)
    (s : String) (hid : T.id = some s) (hmem : s ∈ init) :
    (∀ pr ∈ (run_automation co nf tf (.ok tasks) init).createCalls, pr.1 ≠ s)
    ∧ (∀ st : RunState, s ∈ st.processed →
        runStep co nf tf st T
          = { st with stats := { st.stats with checked := st.stats.checked + 1 } })
    ∧ (∀ st : TDState, T.id ∈ st.processed →
        processStep co nf tf st T
          = { st with stats := { st.stats with checked := st.stats.checked + 1 } }) := by
  refine ⟨?_, ?_, ?_⟩
  · intro pr hpr
    simp only [run_automation] at hpr
    rcases (foldl_run_noCalls co nf tf
        { stats := ⟨0, 0, 0, 0⟩, processed := init, createCalls := [], filterCalls := [] }
        tasks s hmem).1 pr hpr with h | h
    · exact absurd h (List.not_mem_nil pr)
    · exact h
  · exact fun st h => runStep_skip co nf tf st T s hid h
  · exact fun st h => processStep_skip co nf tf st T h

/-- Witness for `already_processed_is_noop`: with `"t1"` already recorded,
the step on a task with id `"t1"` only bumps `checked`. -/
theorem already_processed_is_noop_witness :
    ("t1" : String) ∈ ({"t1"} : Finset String)
    ∧ runStep (fun _ => true) none []
        { stats := ⟨0, 0, 0, 0⟩, processed := {"t1"}, createCalls := [], filterCalls := [] }
        { id := some "t1" }
      = { stats := ⟨1, 0, 0, 0⟩, processed := {"t1"}, createCalls := [], filterCalls := [] } := by
  refine ⟨by decide, ?_⟩
  rw [(already_processed_is_noop (fun _ => true) none [] {"t1"} []
      { id := some "t1" } "t1" rfl (by decide)).2.1
      { stats := ⟨0, 0, 0, 0⟩, processed := {"t1"}, createCalls := [], filterCalls := [] }
      (by decide)]

/-- Claim C3 counterexample: the task transformer variant
`duplicate_task_without_due_date` (cited by the claim) does NOT carry the
input's tags: for a task with tags `["errand"]` its payload has no
`"tags"` key at all, falsifying "the output payload carries ... tags
copied verbatim" for every input task. -/
theorem transformer_tags_cex :
    ({ id := some "t1", title := some "Zap: buy milk", tags := some ["errand"] } : Task).tags
        = some ["errand"]
    ∧ getKey
        (duplicate_task_without_due_date
          { id := some "t1", title := some "Zap: buy milk", tags := some ["errand"] })
        "tags"
      = none := by decide

/-- Claim C3 (amended): for every input task, `create_duplicate_task`
carries title, project id, content, description, priority and tags
verbatim, includes the checklist key iff the input checklist is present
and non-empty, and never emits due-date, start-date or completion-time
keys; the variant `duplicate_task_without_due_date` does the same except
that it carries no tags key at all. -/
theorem transformer_contract (t : Task) :
    (getKey (create_duplicate_task t) "title" = some (optStrVal t.title)
      ∧ getKey (create_duplicate_task t) "projectId" = some (optStrVal t.projectId)
      ∧ getKey (create_duplicate_task t) "content" = some (Value.str (t.content.getD ""))
      ∧ getKey (create_duplicate_task t) "desc" = some (Value.str (t.desc.getD ""))
      ∧ getKey (create_duplicate_task t) "priority" = some (Value.int (t.priority.getD 0))
      ∧ getKey (create_duplicate_task t) "tags" = some (Value.strList (t.tags.getD []))
      ∧ getKey (create_duplicate_task t) "items"
          = (if (t.items.getD []).isEmpty then none
              else some (Value.strList (t.items.getD [])))
      ∧ getKey (create_duplicate_task t) "dueDate" = none
      ∧ getKey (create_duplicate_task t) "startDate" = none
      ∧ getKey (create_duplicate_task t) "completedTime" = none)
    ∧ (getKey (duplicate_task_without_due_date t) "title" = some (optStrVal t.title)
      ∧ getKey (duplicate_task_without_due_date t) "projectId" = some (optStrVal t.projectId)
      ∧ getKey (duplicate_task_without_due_date t) "content"
          = some (Value.str (t.content.getD ""))
      ∧ getKey (duplicate_task_without_due_date t) "desc" = some (Value.str (t.desc.getD ""))
      ∧ getKey (duplicate_task_without_due_date t) "priority"
          = some (Value.int (t.priority.getD 0))
      ∧ getKey (duplicate_task_without_due_date t) "tags" = none
      ∧ getKey (duplicate_task_without_due_date t) "items"
          = (if (t.items.getD []).isEmpty then none
              else some (Value.strList (t.items.getD [])))
      ∧ getKey (duplicate_task_without_due_date t) "dueDate" = none
      ∧ getKey (duplicate_task_without_due_date t) "startDate" = none
      ∧ getKey (duplicate_task_without_due_date t) "completedTime" = none) := by
  rcases hit : t.items with _ | l
  · simp [create_duplicate_task, duplicate_task_without_due_date, getKey, hit]
  · rcases l with _ | ⟨x, xs⟩
    · simp [create_duplicate_task, duplicate_task_without_due_date, getKey, hit]
    · simp [create_duplicate_task, duplicate_task_without_due_date, getKey, hit]

/-- Claim C4: a candidate task with a truthy id that the filter rejects is
added to ProcessedRecord by one pass with no `create_task` call for its
identifier, the pass persists the record, and any pass that starts with
that identifier in ProcessedRecord never evaluates the filter on any task
carrying it — in particular the pass immediately following, on the same
or a mutated version of the task. -/
theorem filter_rejected_consumed_once (co : Task → Bool) (nf : Option String)
    (tf : List String) (init : Finset String) (tasks : List Task) (T : Task)
    (s : String) (hid : T.id = some s) (hs : s ≠ "") (hmemT : T ∈ tasks)
    (hall : ∀ U ∈ tasks, U.id = some s → matches_filters U nf tf = false) :
    (s ∈ (run_automation co nf tf (.ok tasks) init).processed
      ∧ (run_automation co nf tf (.ok tasks) init).saved = true
      ∧ ∀ pr ∈ (run_automation co nf tf (.ok tasks) init).createCalls, pr.1 ≠ s)
    ∧ (∀ (co2 : Task → Bool) (nf2 : Option String) (tf2 : List String)
        (tasks2 : List Task) (init2 : Finset String), s ∈ init2 →
          ∀ u ∈ (run_automation co2 nf2 tf2 (.ok tasks2) init2).filterCalls,
            u.id ≠ some s)
    ∧ (∀ (co2 : Task → Bool) (nf2 : Option String) (tf2 : List String)
        (tasks2 : List Task),
          ∀ u ∈ (run_automation co2 nf2 tf2 (.ok tasks2)
              (run_automation co nf tf (.ok tasks) init).processed).filterCalls,
            u.id ≠ some s) := by
  have base : ∀ (init2 : Finset String), s ∈ init2 →
      ∀ (co2 : Task → Bool) (nf2 : Option String) (tf2 : List String) (tasks2 : List Task),
        ∀ u ∈ (run_automation co2 nf2 tf2 (.ok tasks2) init2).filterCalls,
          u.id ≠ some s := by
    intro init2 hmem2 co2 nf2 tf2 tasks2 u hu
    simp only [run_automation] at hu
    rcases (foldl_run_noCalls co2 nf2 tf2
        { stats := ⟨0, 0, 0, 0⟩, processed := init2, createCalls := [], filterCalls := [] }
        tasks2 s hmem2).2 u hu with h | h
    · exact absurd h (List.not_mem_nil u)
    · exact h
  have hmemfin : s ∈ (run_automation co nf tf (.ok tasks) init).processed := by
    simp only [run_automation]
    exact foldl_mem_processed_of_nomatch co nf tf _ tasks T s hid hs
      (hall T hmemT hid) hmemT
  refine ⟨⟨hmemfin, rfl, ?_⟩, ?_, ?_⟩
  · intro pr hpr
    simp only [run_automation] at hpr
    rcases foldl_noCalls_of_nomatch co nf tf
        { stats := ⟨0, 0, 0, 0⟩, processed := init, createCalls := [], filterCalls := [] }
        tasks s hall pr hpr with h | h
    · exact absurd h (List.not_mem_nil pr)
    · exact h
  · exact fun co2 nf2 tf2 tasks2 init2 h2 => base init2 h2 co2 nf2 tf2 tasks2
  · exact fun co2 nf2 tf2 tasks2 => base _ hmemfin co2 nf2 tf2 tasks2

/-- Witness for `filter_rejected_consumed_once`: a task titled `"x"` does
not match name filter `"Foo"`; one pass records `"t1"` anyway. -/
theorem filter_rejected_consumed_once_witness :
    "t1" ∈ (run_automation (fun _ => true) (some "Foo") []
        (.ok [{ id := some "t1", title := some "x" }]) ∅).processed :=
  (filter_rejected_consumed_once (fun _ => true) (some "Foo") [] ∅
    [{ id := some "t1", title := some "x" }] { id := some "t1", title := some "x" }
    "t1" rfl (by decide) (by decide) (by decide)).1.1

/-- Claim C5: when `create_task` raises for a matched candidate task, the
task's identifier stays out of ProcessedRecord for the whole pass, the
loop nonetheless examines every fetched task (`checked` = batch size),
and the failing iteration increments the error counter by exactly one
while adding nothing to ProcessedRecord — in `run_automation` and, per
iteration, in `TaskDuplicator.process_completed_tasks`. -/
theorem create_failure_retried (co : Task → Bool) (nf : Option String)
    (tf : List String) (init : Finset String) (tasks : List Task) (T : Task)
    (s : String) (hid : T.id = some s) (hs : s ≠ "") (hmemT : T ∈ tasks)
    (hinit : s ∉ init)
    (hall : ∀ U ∈ tasks, U.id = some s →
      matches_filters U nf tf = true ∧ co U = false) :
    (s ∉ (run_automation co nf tf (.ok tasks) init).processed
      ∧ (run_automation co nf tf (.ok tasks) init).stats.checked = tasks.length)
    ∧ (∀ st : RunState, s ∉ st.processed →
        runStep co nf tf st T
          = { st with
              stats := { st.stats with
                          checked := st.stats.checked + 1,
                          matched := st.stats.matched + 1,
                          errors := st.stats.errors + 1 },
              filterCalls := st.filterCalls ++ [T],
              createCalls := st.createCalls ++ [(s, create_duplicate_task T)] })
    ∧ (∀ st : TDState, T.id ∉ st.processed →
        processStep co nf tf st T
          = { st with
              stats := { st.stats with
                          checked := st.stats.checked + 1,
                          matched := st.stats.matched + 1,
                          errors := st.stats.errors + 1 },
              filterCalls := st.filterCalls ++ [T],
              createCalls := st.createCalls ++ [(T.id, create_duplicate_task T)] }) := by
  obtain ⟨hm, hco⟩ := hall T hmemT hid
  refine ⟨⟨?_, ?_⟩, ?_, ?_⟩
  · simp only [run_automation]
    exact foldl_not_mem co nf tf
      { stats := ⟨0, 0, 0, 0⟩, processed := init, createCalls := [], filterCalls := [] }
      tasks s hinit hall
  · simp only [run_automation]
    rw [foldl_run_checked]
    simp
  · exact fun st h => runStep_createfail co nf tf st T s hid hs h hm hco
  · exact fun st h => processStep_createfail co nf tf st T h hm hco

/-- Witness for `create_failure_retried`: one matching task whose creation
fails; its id is not recorded and the whole batch was examined. -/
theorem create_failure_retried_witness :
    "t1" ∉ (run_automation (fun _ => false) none []
        (.ok [{ id := some "t1", title := some "x" }]) ∅).processed
    ∧ (run_automation (fun _ => false) none []
        (.ok [{ id := some "t1", title := some "x" }]) ∅).stats.checked = 1 :=
  (create_failure_retried (fun _ => false) none [] ∅
    [{ id := some "t1", title := some "x" }] { id := some "t1", title := some "x" }
    "t1" rfl (by decide) (by decide) (by decide) (by decide)).1

/-- Claim C6: a failure fetching the remote task universe aborts the pass
before any mutation: ProcessedRecord is returned unchanged and not
persisted, no `create_task` call (and no filter evaluation) happens, and
the statistics are checked=0, matched=0, duplicated=0, errors=1 — in both
`run_automation` and `TaskDuplicator.process_completed_tasks`. -/
theorem fetch_failure_aborts (co : Task → Bool) (nf : Option String)
    (tf : List String) (init : Finset String) (initTD : Finset (Option String)) :
    run_automation co nf tf (.error ()) init
      = { stats := ⟨0, 0, 0, 1⟩, processed := init, createCalls := [],
          filterCalls := [], saved := false }
    ∧ process_completed_tasks co nf tf (.error ()) initTD
      = { stats := ⟨0, 0, 0, 1⟩, processed := initTD, createCalls := [],
          filterCalls := [], saved := false } :=
  ⟨rfl, rfl⟩

/-- Claim C7 counterexample: the state map of the Mode B automation
(`ticktick/automations/01_...py`, also cited by the claim as
ProcessedRecord) is not append-only: id `"a"` is in the loaded state, its
task completes, and the state saved by the very next pass no longer
contains `"a"` — the identifier was evicted. -/
theorem processed_record_eviction_cex :
    (modeBState0.map Prod.fst).contains "a" = true
    ∧ ((automation01 modeBClient0 modeBState0).map Prod.fst).contains "a" = false := by
  decide

/-- Claim C7 (amended): for the processed-ID set of the Mode A loops
(`run_automation` / `process_completed_tasks`), the record is monotone and
append-only across every sequence of passes, and a recorded identifier is
never processed again (no filter evaluation, no `create_task` call, and
it stays in the record); the Mode B automation's pending-task map does
not satisfy this — it evicts entries of tasks that left the pending set. -/
theorem processed_record_append_only (nf : Option String) (tf : List String) :
    (∀ (passes : List ((Task → Bool) × Except Unit (List Task)))
        (init : Finset String), init ⊆ runPasses nf tf passes init)
    ∧ (∀ (co : Task → Bool) (fetched : Except Unit (List Task))
        (init : Finset String) (s : String), s ∈ init →
          s ∈ (run_automation co nf tf fetched init).processed
          ∧ (∀ pr ∈ (run_automation co nf tf fetched init).createCalls, pr.1 ≠ s)
          ∧ (∀ u ∈ (run_automation co nf tf fetched init).filterCalls,
              u.id ≠ some s))
    ∧ (∀ (passes : List ((Task → Bool) × Except Unit (List Task)))
        (initTD : Finset (Option String)), initTD ⊆ tdPasses nf tf passes initTD)
    ∧ (∀ (co : Task → Bool) (fetched : Except Unit (List Task))
        (initTD : Finset (Option String)) (x : Option String), x ∈ initTD →
          x ∈ (process_completed_tasks co nf tf fetched initTD).processed
          ∧ (∀ pr ∈ (process_completed_tasks co nf tf fetched initTD).createCalls,
              pr.1 ≠ x)
          ∧ (∀ u ∈ (process_completed_tasks co nf tf fetched initTD).filterCalls,
              u.id ≠ x)) := by
  refine ⟨?_, ?_, ?_, ?_⟩
  · intro passes
    induction passes with
    | nil => exact fun init => Finset.Subset.refl _
    | cons p ps ih =>
        intro init
        exact (run_automation_processed_mono p.1 nf tf p.2 init).trans
          (ih (run_automation p.1 nf tf p.2 init).processed)
  · intro co fetched init s hmem
    rcases fetched with e | l
    · refine ⟨hmem, ?_, ?_⟩
      · intro pr hpr
        exact absurd hpr (List.not_mem_nil pr)
      · intro u hu
        exact absurd hu (List.not_mem_nil u)
    · have hcalls := foldl_run_noCalls co nf tf
        { stats := ⟨0, 0, 0, 0⟩, processed := init, createCalls := [], filterCalls := [] }
        l s hmem
      refine ⟨run_automation_processed_mono co nf tf (.ok l) init hmem, ?_, ?_⟩
      · intro pr hpr
        simp only [run_automation] at hpr
        rcases hcalls.1 pr hpr with h | h
        · exact absurd h (List.not_mem_nil pr)
        · exact h
      · intro u hu
        simp only [run_automation] at hu
        rcases hcalls.2 u hu with h | h
        · exact absurd h (List.not_mem_nil u)
        · exact h
  · intro passes
    induction passes with
    | nil => exact fun initTD => Finset.Subset.refl _
    | cons p ps ih =>
        intro initTD
        exact (process_completed_tasks_processed_mono p.1 nf tf p.2 initTD).trans
          (ih (process_completed_tasks p.1 nf tf p.2 initTD).processed)
  · intro co fetched initTD x hmem
    rcases fetched with e | l
    · refine ⟨hmem, ?_, ?_⟩
      · intro pr hpr
        exact absurd hpr (List.not_mem_nil pr)
      · intro u hu
        exact absurd hu (List.not_mem_nil u)
    · have hcalls := foldl_td_noCalls co nf tf
        { stats := ⟨0, 0, 0, 0⟩, processed := initTD, createCalls := [], filterCalls := [] }
        l x hmem
      refine ⟨process_completed_tasks_processed_mono co nf tf (.ok l) initTD hmem, ?_, ?_⟩
      · intro pr hpr
        simp only [process_completed_tasks] at hpr
        rcases hcalls.1 pr hpr with h | h
        · exact absurd h (List.not_mem_nil pr)
        · exact h
      · intro u hu
        simp only [process_completed_tasks] at hu
        rcases hcalls.2 u hu with h | h
        · exact absurd h (List.not_mem_nil u)
        · exact h

/-- Witness for `processed_record_append_only`: a recorded id `"t1"`
survives a pass that fetched a task with that very id, in both Mode A
loops. -/
theorem processed_record_append_only_witness :
    ("t1" : String) ∈ ({"t1"} : Finset String)
    ∧ "t1" ∈ (run_automation (fun _ => true) none []
        (.ok [{ id := some "t1", title := some "x" }]) {"t1"}).processed
    ∧ some "t1" ∈ (process_completed_tasks (fun _ => true) none []
        (.ok [{ id := some "t1", title := some "x" }]) {some "t1"}).processed :=
  ⟨by decide,
    ((processed_record_append_only none []).2.1 (fun _ => true)
      (.ok [{ id := some "t1", title := some "x" }]) {"t1"} "t1" (by decide)).1,
    ((processed_record_append_only none []).2.2.2 (fun _ => true)
      (.ok [{ id := some "t1", title := some "x" }]) {some "t1"} (some "t1")
      (by decide)).1⟩

/-- Claim C8 (code bug): `get_completed_tasks` of
`ticktick_automations/utils/ticktick_api.py` identifies the status-2 tasks
of the queried projects but never appends them to its accumulator, so it
returns the empty list for every input — here shown in general, and on a
universe that does contain a completed task. -/
theorem get_completed_tasks_returns_empty :
    (∀ (remote : TickTickRemote) (pid : Option String) (fd : Option Nat),
        get_completed_tasks remote pid fd = [])
    ∧ get_completed_tasks remoteC8 none none = []
    ∧ (remoteC8.project_data "p1").filter (fun task => task.status.getD 0 == 2)
        = [doneTask] := by
  refine ⟨?_, by decide, by decide⟩
  intro remote pid fd
  simp only [get_completed_tasks, foldl_const]

/-- Claim C9: end-to-end scenario — empty ProcessedRecord, name filter
`"Zap:"`, no tag filter, one completed remote task `zapTask`, successful
creation: `create_task` is called exactly once, for `"t1"`, with a payload
lacking `dueDate` (and any schedule field); the persisted record is
exactly `{"t1"}`; the statistics are checked=1, matched=1, duplicated=1,
errors=0. -/
theorem end_to_end_single_zap_task :
    run_automation (fun _ => true) (some "Zap:") [] (.ok [zapTask]) ∅
      = { stats := ⟨1, 1, 1, 0⟩, processed := {"t1"},
          createCalls := [("t1",
            [("title", Value.str "Zap: buy milk"), ("projectId", Value.null),
             ("content", Value.str ""), ("desc", Value.str ""),
             ("priority", Value.int 0), ("tags", Value.strList ["errand"])])],
          filterCalls := [zapTask], saved := true }
    ∧ getKey (create_duplicate_task zapTask) "dueDate" = none := by
  decide

/-- Claim C10: whenever the fetch succeeds, the returned statistics
satisfy matched = duplicated + errors and checked ≥ matched, with checked
equal to the number of fetched tasks; an already-processed task
contributes to `checked` only (its iteration changes no other counter) —
in both `run_automation` and `TaskDuplicator.process_completed_tasks`. -/
theorem stats_invariant (co : Task → Bool) (nf : Option String) (tf : List String)
    (tasks : List Task) (init : Finset String) (initTD : Finset (Option String)) :
    ((run_automation co nf tf (.ok tasks) init).stats.matched
        = (run_automation co nf tf (.ok tasks) init).stats.duplicated
          + (run_automation co nf tf (.ok tasks) init).stats.errors
      ∧ (run_automation co nf tf (.ok tasks) init).stats.checked = tasks.length
      ∧ (run_automation co nf tf (.ok tasks) init).stats.matched
          ≤ (run_automation co nf tf (.ok tasks) init).stats.checked)
    ∧ ((process_completed_tasks co nf tf (.ok tasks) initTD).stats.matched
        = (process_completed_tasks co nf tf (.ok tasks) initTD).stats.duplicated
          + (process_completed_tasks co nf tf (.ok tasks) initTD).stats.errors
      ∧ (process_completed_tasks co nf tf (.ok tasks) initTD).stats.checked = tasks.length
      ∧ (process_completed_tasks co nf tf (.ok tasks) initTD).stats.matched
          ≤ (process_completed_tasks co nf tf (.ok tasks) initTD).stats.checked)
    ∧ (∀ (st : TDState) (t : Task), t.id ∈ st.processed →
        (processStep co nf tf st t).stats
          = { st.stats with checked := st.stats.checked + 1 }) := by
  refine ⟨⟨?_, ?_, ?_⟩, ⟨?_, ?_, ?_⟩, ?_⟩
  · simp only [run_automation]
    exact foldl_run_inv co nf tf _ tasks rfl
  · simp only [run_automation]
    rw [foldl_run_checked]
    simp
  · simp only [run_automation]
    exact foldl_run_matched_le co nf tf _ tasks (Nat.le_refl 0)
  · simp only [process_completed_tasks]
    exact foldl_td_inv co nf tf _ tasks rfl
  · simp only [process_completed_tasks]
    rw [foldl_td_checked]
    simp
  · simp only [process_completed_tasks]
    exact foldl_td_matched_le co nf tf _ tasks (Nat.le_refl 0)
  · intro st t h
    rw [processStep_skip co nf tf st t h]

/-- Witness for `stats_invariant`: an iteration on an already-recorded id
changes only `checked`. -/
theorem stats_invariant_witness :
    (some "t1" : Option String) ∈ ({some "t1"} : Finset (Option String))
    ∧ (processStep (fun _ => true) none []
        { stats := ⟨0, 0, 0, 0⟩, processed := {some "t1"},
          createCalls := [], filterCalls := [] }
        { id := some "t1" }).stats = ⟨1, 0, 0, 0⟩ := by
  refine ⟨by decide, ?_⟩
  rw [(stats_invariant (fun _ => true) none [] [] ∅ ∅).2.2
      { stats := ⟨0, 0, 0, 0⟩, processed := {some "t1"},
        createCalls := [], filterCalls := [] }
      { id := some "t1" } (by decide)]

end TickTickAuto
